import Mathlib

/-!
Shallow embedding of the layout / scroller core of a curses window manager
(`src/lib/wm/wm_splitter.c` and `src/cgdb/scroller.c`), together with theorems
checking the natural-language specification against the code.

Strings are modelled as lists of byte values (`List Nat`, one entry per `char`,
NUL-free: the terminating NUL of a C string is the end of the list).  Machine
`int` values are modelled as `Int` where they can go negative and as `Nat`
where the code keeps them non-negative.
-/

/-! ## Byte classification (ctype.h, C locale)

The C code calls `isprint`/`isspace`/`isdigit` on byte values; in the C locale
`isprint` accepts exactly 0x20..0x7E, `isspace` accepts space and 0x09..0x0D,
`isdigit` accepts the ASCII digits.  Bytes at or above 0x80 arrive as negative
`signed char` values and are accepted by none of them. -/

def isprintB (b : Nat) : Bool := decide (32 ≤ b ∧ b ≤ 126)

def isspaceB (b : Nat) : Bool := decide (b = 32 ∨ (9 ≤ b ∧ b ≤ 13))

def isdigitB (b : Nat) : Bool := decide (48 ≤ b ∧ b ≤ 57)

/-! ## The character interpreter of `parse` (scroller.c lines 63-110) -/

/-- Writing a byte into the `rv` buffer at index `i` (`rv[i] = c`).  The C
buffer is zero-filled beyond the copied prefix (`memset(rv, 0, length + 1)`),
so writing past the end of the modelled list materializes that zero fill. -/
def writeAt (l : List Nat) (i : Nat) (c : Nat) : List Nat :=
  if i < l.length then l.set i c
  else l ++ List.replicate (i - l.length) 0 ++ [c]

/-- Tab expansion, scroller.c lines 85-88:
`do rv[i++] = ' '; while (i % tab_size != 0);` with `tab_size = 8`. -/
def tabFill (l : List Nat) (i : Nat) : List Nat × Nat :=
  let l2 := writeAt l i 32
  if (i + 1) % 8 = 0 then (l2, i + 1) else tabFill l2 (i + 1)
termination_by 8 - i % 8
decreasing_by omega

/-- One step of the `switch (buf[j])` of `parse` (scroller.c lines 76-102),
acting on the pair (line buffer, caret position `i`). -/
def parseStep (st : List Nat × Nat) (b : Nat) : List Nat × Nat :=
  if b = 8 ∨ b = 127 then
    (st.1, if 0 < st.2 then st.2 - 1 else st.2)
  else if b = 9 then
    tabFill st.1 st.2
  else if b = 13 then
    (st.1, 0)
  else if isprintB b then
    (writeAt st.1 st.2 b, st.2 + 1)
  else
    st

/-- Index of the first NUL in the modelled buffer (`strlen(rv)`); the
allocation is zero-filled past the written content, so a list with no interior
zero has its NUL exactly at the end. -/
def strlenL (l : List Nat) : Nat := l.findIdx (· == 0)

/-- Trailing-whitespace trim of `parse` (scroller.c line 106):
`for (j = strlen(rv) - 1; j > i && isspace((int) rv[j]); j--);` followed by
`rv[j + 1] = 0;`.  Phrased over `jp = j + 1`, the length kept; the C loop
condition `j > i` is `i + 1 < jp`. -/
def trimStop (rv : List Nat) (i : Nat) (jp : Nat) : Nat :=
  if i + 1 < jp ∧ isspaceB (rv.getD (jp - 1) 0) = true then trimStop rv i (jp - 1)
  else jp
termination_by jp
decreasing_by omega

/-- The full `parse` routine (scroller.c lines 63-110): copy `orig`, interpret
the bytes of `buf` from caret position `pos`, then cut the string at the trim
point.  Returns the new line (as a C string, i.e. up to the first NUL) and the
new caret `scr->current.pos`. -/
def parse (orig : List Nat) (pos : Nat) (buf : List Nat) : List Nat × Nat :=
  let st := (buf.takeWhile (· != 0)).foldl parseStep (orig, pos)
  let jp := trimStop st.1 st.2 (strlenL st.1)
  ((st.1.take jp).takeWhile (· != 0), st.2)

/-- The interpreted line before the trailing-whitespace trim: the C-string
content (up to the first NUL) of the `rv` buffer after the interpreter loop
of `parse`, before `rv[j + 1] = 0` cuts it. -/
def parse_untrimmed (orig : List Nat) (pos : Nat) (buf : List Nat) : List Nat :=
  let st := (buf.takeWhile (· != 0)).foldl parseStep (orig, pos)
  st.1.take (strlenL st.1)

/-! ## Escape-sequence scanning (scroller.c lines 290-319 and 361-408)

Both `get_line_height` and `scr_refresh` recognize the same dialect: a `[`
followed by up to two `strtol` runs, each with an optional `;`, terminated by
`m`.  Only the movement of the `strtol` end pointer matters for the state. -/

/-- Number of bytes consumed by `strtol(p, &p, 10)`: optional whitespace, an
optional sign, then digits; when no digit is consumed the end pointer is reset
to the start, consuming nothing. -/
def strtolConsumed (l : List Nat) : Nat :=
  let w := (l.takeWhile isspaceB).length
  let s := if (l.drop w).headD 0 = 43 ∨ (l.drop w).headD 0 = 45 then 1 else 0
  let d := ((l.drop (w + s)).takeWhile isdigitB).length
  if d = 0 then 0 else w + s + d

/-- Attempt to recognize an escape sequence: `l` is the byte list following a
`[`; the result is the number of bytes consumed including the closing `m`,
or `none` when the position after the two `strtol`/`;` steps is not `m`. -/
def escSkip (l : List Nat) : Option Nat :=
  let c1 := strtolConsumed l
  let s1 := if (l.drop c1).headD 0 = 59 then 1 else 0
  let c2 := strtolConsumed (l.drop (c1 + s1))
  let s2 := if (l.drop (c1 + s1 + c2)).headD 0 = 59 then 1 else 0
  if (l.drop (c1 + s1 + c2 + s2)).headD 0 = 109 then some (c1 + s1 + c2 + s2 + 1)
  else none

/-- The printable-cell count of a line (`get_line_height` lines 292-314):
walk the line, skipping recognized escape sequences, counting every other
byte (an unrecognized `[` is counted like a printable byte). -/
def scanLength : List Nat → Nat
  | [] => 0
  | b :: rest =>
    if b = 91 then
      match escSkip rest with
      | some k => scanLength (rest.drop k)
      | none => 1 + scanLength rest
    else 1 + scanLength rest
termination_by l => l.length
decreasing_by
  · simp only [List.length_drop, List.length_cons]; omega
  · simp only [List.length_cons]; omega
  · simp only [List.length_cons]; omega

/-- The height loop of `get_line_height` (lines 315-317):
`int height = 1; while ((length -= width) > 0) ++height;`.
A zero `width` would loop forever in C; real canvases have `width ≥ 1`, and
the model returns the accumulator in that unreachable case. -/
def heightGo (len w h : Nat) : Nat :=
  if w = 0 then h
  else if len ≤ w then h
  else heightGo (len - w) w (h + 1)
termination_by len
decreasing_by omega

theorem heightGo_ge (len w h : Nat) : h ≤ heightGo len w h := by
  induction len using Nat.strong_induction_on generalizing h with
  | _ len ih =>
    unfold heightGo
    split
    · exact Nat.le_refl h
    · split
      · exact Nat.le_refl h
      · exact Nat.le_trans (Nat.le_succ h) (ih (len - w) (by omega) (h + 1))

/-- Visual height of a buffer line on a canvas of the given width
(`get_line_height`, scroller.c lines 290-319). -/
def get_line_height (line : List Nat) (width : Nat) : Nat :=
  heightGo (scanLength line) width 1

theorem one_le_get_line_height (line : List Nat) (width : Nat) :
    1 ≤ get_line_height line width :=
  heightGo_ge (scanLength line) width 1

/-! ## The scroller state and its viewport operations -/

/-- The scroller state (`struct scroller`): the line buffer, the viewport
cursor `current.r` / `current.c` / `current.pos`, and the curses window
dimensions reported by `getmaxyx`.  `scr->length` is `buffer.length`. -/
structure Scroller where
  buffer : List (List Nat)
  r : Nat
  c : Nat
  pos : Nat
  height : Nat
  width : Nat
deriving DecidableEq

/-- The column snap shared by `scr_up`, `scr_down` and `scr_refresh`
(e.g. scroller.c lines 194-197): if the column is positive and not a multiple
of the width, round it down to one. -/
def snapc (c width : Nat) : Nat :=
  if 0 < c ∧ c % width ≠ 0 then c / width * width else c

/-- The `for (i = 0; i < nlines; i++)` body of `scr_down`
(scroller.c lines 199-215): advance within a wrapped line while
`current.c < length - width` (an `int` comparison), otherwise move to the next
row, stopping at the bottom. -/
def scr_down_go (scr : Scroller) : Nat → Scroller
  | 0 => scr
  | n + 1 =>
    let length := (scr.buffer.getD scr.r []).length
    if (scr.c : Int) < (length : Int) - (scr.width : Int) then
      scr_down_go { scr with c := scr.c + scr.width } n
    else if scr.r < scr.buffer.length - 1 then
      scr_down_go { scr with r := scr.r + 1, c := 0 } n
    else
      scr

/-- `scr_down` (scroller.c lines 186-216): snap the column, then advance by
`nlines` visual rows. -/
def scr_down (scr : Scroller) (nlines : Nat) : Scroller :=
  scr_down_go { scr with c := snapc scr.c scr.width } nlines

/-- `scr_home` (scroller.c lines 218-222). -/
def scr_home (scr : Scroller) : Scroller := { scr with r := 0, c := 0 }

/-- `scr_end` (scroller.c lines 224-232): last row, column rounded down to a
multiple of the width from the last line's length. -/
def scr_end (scr : Scroller) : Scroller :=
  { scr with
    r := scr.buffer.length - 1,
    c := (scr.buffer.getD (scr.buffer.length - 1) []).length / scr.width * scr.width }

/-- `n` successive calls of `scr_down(scr, 1)`. -/
def downTicks : Scroller → Nat → Scroller
  | s, 0 => s
  | s, n + 1 => downTicks (scr_down s 1) n

/-! ## The renderer `scr_refresh` (scroller.c lines 321-446)

Only the scroller-state effects are modelled; all `w*` curses calls write to
the canvas.  The state writes are the entry column snap (lines 332-335) and
`scr->current.c = total_length` inside the segment loop (line 425). -/

/-- Index of the first `[` at index ≥ `s` (the `strchr(segment_start + 1, '[')`
call, line 363, is `nextLb line (s + 1)`); `line.length` when there is none. -/
def nextLb (line : List Nat) (s : Nat) : Nat :=
  s + (line.drop s).findIdx (· == 91)

/-- The segment loop of `scr_refresh` for one buffer line (lines 361-428),
tracking `total_length` and the assignment `scr->current.c = total_length`;
returns the value of `current.c` after the loop (`c` unchanged when the line
is empty and the loop body never runs). -/
def segLoop (line : List Nat) (s total c : Nat) : Nat :=
  if h : s < line.length then
    let segEnd := nextLb line (s + 1)
    let s2 :=
      if line.getD s 0 = 91 then
        match escSkip (line.drop (s + 1)) with
        | some k => s + 1 + k
        | none => s
      else s
    let total2 := total + (segEnd - s2)
    segLoop line segEnd total2 total2
  else c
termination_by line.length - s
decreasing_by simp only [nextLb]; omega

/-- The bottom-up drawing loop of `scr_refresh` (lines 340-433): walk `row`
down from `current.r`, consuming `get_line_height` visual rows per line while
`nlines <= height`.  Returns the final `current.c` and the number of loop
iterations executed. -/
def refreshLoop (scr : Scroller) (row : Int) (nlines : Nat) (c : Nat) : Nat × Nat :=
  if h : nlines ≤ scr.height then
    if row < 0 then
      let res := refreshLoop scr row (nlines + 1) c
      (res.1, res.2 + 1)
    else
      let line := scr.buffer.getD row.toNat []
      let c2 := segLoop line 0 0 c
      let res := refreshLoop scr (row - 1) (nlines + get_line_height line scr.width) c2
      (res.1, res.2 + 1)
  else (c, 0)
termination_by scr.height + 1 - nlines
decreasing_by
  · omega
  · have h1 := one_le_get_line_height (scr.buffer.getD row.toNat []) scr.width
    omega

/-- `scr_refresh` (scroller.c lines 321-446) restricted to its effect on the
scroller state: the entry snap of `current.c` and the per-line
`scr->current.c = total_length` writes; everything else (clearing, printing,
color pairs, the cursor display decided by `focus`) acts on the canvas only. -/
def scr_refresh (scr : Scroller) (focus : Bool) : Scroller :=
  let c0 := snapc scr.c scr.width
  { scr with c := (refreshLoop scr (scr.r : Int) 1 c0).1 }

/-! ## The split tree: wm_splitter.c -/

inductive wm_orientation where
  | horizontal
  | vertical
deriving DecidableEq

/-- The slice of `struct wm_window` that wm_splitter.c reads and writes for a
child: the placement rectangle (`top`, `left`, `real_height`, `real_width`)
and the result of the virtual `minimum_size` call, stored as data. -/
structure wm_window where
  top : Int
  left : Int
  real_height : Int
  real_width : Int
  min_height : Int
  min_width : Int
deriving DecidableEq

/-- Default window used for out-of-range `children[..]` reads. -/
def w0 : wm_window := ⟨0, 0, 0, 0, 0, 0⟩

/-- The `get_position` macro (wm_splitter.c lines 26-28). -/
def get_position (o : wm_orientation) (w : wm_window) : Int :=
  if o = .horizontal then w.top else w.left

/-- The `get_dimension` macro (wm_splitter.c lines 29-31). -/
def get_dimension (o : wm_orientation) (w : wm_window) : Int :=
  if o = .horizontal then w.real_height else w.real_width

/-- Assignment through the `get_position` macro. -/
def set_position (o : wm_orientation) (w : wm_window) (v : Int) : wm_window :=
  if o = .horizontal then { w with top := v } else { w with left := v }

/-- Assignment through the `get_dimension` macro. -/
def set_dimension (o : wm_orientation) (w : wm_window) (v : Int) : wm_window :=
  if o = .horizontal then { w with real_height := v } else { w with real_width := v }

/-- `wm_splitter_min_dimension` (lines 546-553): the child's minimum size
along the split orientation. -/
def wm_splitter_min_dimension (o : wm_orientation) (w : wm_window) : Int :=
  if o = .horizontal then w.min_height else w.min_width

/-- In-place update of `splitter->children[k]`. -/
def modIdx {α : Type} : List α → Nat → (α → α) → List α
  | [], _, _ => []
  | x :: xs, 0, f => f x :: xs
  | x :: xs, k + 1, f => x :: modIdx xs k f

theorem modIdx_length {α : Type} (l : List α) (k : Nat) (f : α → α) :
    (modIdx l k f).length = l.length := by
  induction l generalizing k with
  | nil => rfl
  | cons x xs ih =>
    cases k with
    | zero => rfl
    | succ k => simp [modIdx, ih]

/-- Sum of the children's dimensions along the orientation. -/
def dimSum (o : wm_orientation) (cs : List wm_window) : Int :=
  (cs.map (get_dimension o)).sum

/-- A splitter node: orientation, own placement rectangle and the child
array of `struct wm_splitter` (the growable array is modelled as a list). -/
structure wm_splitter where
  orientation : wm_orientation
  top : Int
  left : Int
  real_height : Int
  real_width : Int
  children : List wm_window

/-! ### `wm_splitter_layout` (lines 345-446) -/

/-- The redistribute trigger (lines 359-381): some child has
`window->real_height * proportions[i] < min` (`proportions[i]` still holds
the raw dimension at that point, the division by `prev_dimension` happens
later), or some child still has the 1 x 1 placeholder size of a freshly
created window. -/
def layout_redistribute (spl : wm_splitter) : Bool :=
  let avail_w := spl.real_width - ((spl.children.length : Int) - 1)
  spl.children.any (fun c =>
    decide (
      (if spl.orientation = .horizontal then
        spl.real_height * get_dimension spl.orientation c <
          wm_splitter_min_dimension spl.orientation c
      else
        avail_w * get_dimension spl.orientation c <
          wm_splitter_min_dimension spl.orientation c)
      ∨ (c.real_height = 1 ∧ c.real_width = 1)))

/-- The space distributed along the split axis: the splitter's height for
horizontal splits; for vertical splits the width minus one separator column
per gap (the local `real_width` of line 357). -/
def layout_avail (spl : wm_splitter) : Int :=
  if spl.orientation = .horizontal then spl.real_height
  else spl.real_width - ((spl.children.length : Int) - 1)

/-- The remainder bump loop (lines 420-424):
`while (my_dimension < min && remainder) { my_dimension++; remainder--; }`. -/
def bumpLoop (my minv rem : Int) : Int × Int :=
  if my < minv ∧ rem ≠ 0 then bumpLoop (my + 1) minv (rem - 1) else (my, rem)
termination_by (minv - my).toNat
decreasing_by omega

/-- `wm_splitter_place_window` as it affects a child's rectangle (lines
429-438): along the axis the child gets `position` and its computed dimension;
across the axis it spans the splitter's full extent. -/
def place_child (o : wm_orientation) (wtop wleft wh ww : Int)
    (w : wm_window) (position my : Int) : wm_window :=
  if o = .horizontal then
    { w with top := position, left := wleft, real_height := my, real_width := ww }
  else
    { w with top := wtop, left := position, real_height := wh, real_width := my }

/-- The placement loop of `wm_splitter_layout` (lines 417-441): walk the
children paired with their `new_sizes`, carrying `position` and `remainder`;
children below their minimum eat the remainder first, and the last child
absorbs whatever remainder is left (lines 425-428).  Vertical splits advance
the position by one extra separator column (line 437). -/
def placeLoop (o : wm_orientation) (wtop wleft wh ww : Int) :
    List (wm_window × Int) → Int → Int → List wm_window
  | [], _, _ => []
  | (w, sz) :: rest, position, rem =>
    let br := bumpLoop sz (wm_splitter_min_dimension o w) rem
    let f := if br.2 ≠ 0 ∧ rest = [] then (br.1 + br.2, 0) else br
    place_child o wtop wleft wh ww w position f.1 ::
      placeLoop o wtop wleft wh ww rest
        (position + f.1 + (if o = .horizontal then 0 else 1)) f.2

/-- `wm_splitter_layout` (lines 345-446) restricted to child geometry: compute
`new_sizes` — the equal split `avail / n` on the redistribute fallback (where
the C also sets `sum` to the whole dimension, lines 388 and 393, making the
remainder zero), otherwise sizes proportional to the previous dimensions —
then place every child.  The C float expression
`(int)((cur / prev_dimension) * avail)` is modelled exactly over the integers
as `(cur * avail).tdiv prev` (truncation toward zero, like the C cast). -/
def wm_splitter_layout (spl : wm_splitter) : List wm_window :=
  let o := spl.orientation
  let n := (spl.children.length : Int)
  let avail := layout_avail spl
  let prev := dimSum o spl.children
  let new_sizes :=
    if layout_redistribute spl then spl.children.map (fun _ => avail.tdiv n)
    else spl.children.map (fun c => ((get_dimension o c) * avail).tdiv prev)
  let sum := if layout_redistribute spl then avail else new_sizes.sum
  let remainder := avail - sum
  let position := if o = .horizontal then spl.top else spl.left
  placeLoop o spl.top spl.left spl.real_height spl.real_width
    (spl.children.zip new_sizes) position remainder

/-! ### `wm_splitter_resize_window` (lines 103-222) -/

/-- The `for (k = i + 1; k < j; ++k)` / `for (k = i - 1; k > j; --k)` position
shifts (lines 181-183 and 199-201): add `d` to the position of every child
with index in `[lo, hi)`. -/
def shiftRange (o : wm_orientation) (cs : List wm_window) (lo hi : Nat) (d : Int) :
    List wm_window :=
  cs.mapIdx (fun k w =>
    if lo ≤ k ∧ k < hi then set_position o w (get_position o w + d) else w)

theorem shiftRange_length (o : wm_orientation) (cs : List wm_window)
    (lo hi : Nat) (d : Int) : (shiftRange o cs lo hi d).length = cs.length := by
  simp [shiftRange]

/-- The "Borrow from successors" loop (lines 168-185); `idx` is the resized
child's index, `j` the loop counter, `actual` the accumulated change. -/
def borrowSucc (o : wm_orientation) (idx : Nat) (desired : Int) :
    List wm_window → Int → Nat → List wm_window × Int
  | cs, actual, j =>
    if h : actual ≠ desired ∧ j < cs.length then
      let cj := cs.getD j w0
      let avail := get_dimension o cj - wm_splitter_min_dimension o cj
      let tc := if desired - actual > avail then avail else desired - actual
      let cs1 := modIdx cs j (fun w => set_position o w (get_position o w + tc))
      let cs2 := modIdx cs1 j (fun w => set_dimension o w (get_dimension o w - tc))
      let cs3 := modIdx cs2 idx (fun w => set_dimension o w (get_dimension o w + tc))
      let cs4 := shiftRange o cs3 (idx + 1) j tc
      borrowSucc o idx desired cs4 (actual + tc) (j + 1)
    else (cs, actual)
termination_by cs _ j => cs.length - j
decreasing_by simp [shiftRange_length, modIdx_length]; omega

/-- The "Borrow from predecessors" loop (lines 186-203); the C counter runs
down to `-1`, modelled by processing index `j` and stopping after index 0. -/
def borrowPred (o : wm_orientation) (idx : Nat) (desired : Int) :
    List wm_window → Int → Nat → List wm_window × Int
  | cs, actual, j =>
    if actual ≠ desired then
      let cj := cs.getD j w0
      let avail := get_dimension o cj - wm_splitter_min_dimension o cj
      let tc := if desired - actual > avail then avail else desired - actual
      let cs1 := modIdx cs j (fun w => set_dimension o w (get_dimension o w - tc))
      let cs2 := modIdx cs1 idx (fun w => set_position o w (get_position o w - tc))
      let cs3 := modIdx cs2 idx (fun w => set_dimension o w (get_dimension o w + tc))
      let cs4 := shiftRange o cs3 (j + 1) idx (-tc)
      match j with
      | 0 => (cs4, actual + tc)
      | jj + 1 => borrowPred o idx desired cs4 (actual + tc) jj
    else (cs, actual)
termination_by _ _ j => j
decreasing_by omega

/-- The size clamp of `wm_splitter_resize_window` (lines 121-139): raise
`size` to the window's minimum, then cap it at the splitter dimension (minus
one separator column per gap when vertical) minus the minimum dimensions of
all the other children. -/
def resize_clamped (spl : wm_splitter) (idx : Nat) (dir : wm_orientation)
    (size0 : Int) : Int :=
  let o := spl.orientation
  let minv := wm_splitter_min_dimension o (spl.children.getD idx w0)
  let size1 := if size0 < minv then minv else size0
  let max0 := if dir = .horizontal then spl.real_height
              else spl.real_width - ((spl.children.length : Int) - 1)
  let maxv := max0 -
    (spl.children.mapIdx
      (fun j w => if j = idx then 0 else wm_splitter_min_dimension o w)).sum
  if size1 > maxv then maxv else size1

/-- `desired_change` (line 140): the clamped size minus the window's current
dimension along the split. -/
def resize_desired (spl : wm_splitter) (idx : Nat) (dir : wm_orientation)
    (size0 : Int) : Int :=
  resize_clamped spl idx dir size0 -
    get_dimension spl.orientation (spl.children.getD idx w0)

/-- The `desired_change < 0` branch (lines 151-166): shrink the window and
grow the next child (the previous one when the window is last, shifting the
window instead of the neighbor). -/
def resize_shrink (spl : wm_splitter) (idx : Nat) (desired : Int) :
    List wm_window :=
  let o := spl.orientation
  let nidx := if idx + 1 = spl.children.length then idx - 1 else idx + 1
  let cs1 := modIdx spl.children nidx
    (fun w => set_dimension o w (get_dimension o w - desired))
  let cs2 := modIdx cs1 idx
    (fun w => set_dimension o w (get_dimension o w + desired))
  if idx + 1 = spl.children.length then
    modIdx cs2 idx (fun w => set_position o w (get_position o w - desired))
  else
    modIdx cs2 nidx (fun w => set_position o w (get_position o w + desired))

/-- The `desired_change > 0` branch (lines 167-203): borrow from the
successors, then from the predecessors (skipped when the window is first). -/
def resize_grow (spl : wm_splitter) (idx : Nat) (desired : Int) :
    List wm_window :=
  let r1 := borrowSucc spl.orientation idx desired spl.children 0 (idx + 1)
  if idx = 0 then r1.1
  else (borrowPred spl.orientation idx desired r1.1 r1.2 (idx - 1)).1

/-- `wm_splitter_resize_window` (lines 103-222) on the children of one
splitter.  The resized window is `children[idx]`; `none` models the `-1`
error returns, all of which happen before any state is written.  The final
"place windows that have been updated" loop (lines 206-219) pushes the
already-updated rectangles into curses and touches no splitter state. -/
def wm_splitter_resize_window (spl : wm_splitter) (idx : Nat)
    (dir : wm_orientation) (size0 : Int) : Option (List wm_window) :=
  if spl.children.length = 1 then none
  else if dir ≠ spl.orientation then none
  else if resize_desired spl idx dir size0 = 0 then some spl.children
  else if idx < spl.children.length then
    if resize_desired spl idx dir size0 < 0 then
      some (resize_shrink spl idx (resize_desired spl idx dir size0))
    else
      some (resize_grow spl idx (resize_desired spl idx dir size0))
  else none

/-- A splitter together with the windows that are not its children.
`wm_splitter_resize_window` receives only the splitter pointer and writes only
through `splitter->children[..]` (lines 103-222), so windows outside the
splitter pass through untouched. -/
structure wm_world where
  spl : wm_splitter
  outside : List wm_window

/-- Resize seen from the whole window population. -/
def wm_resize_world (world : wm_world) (idx : Nat) (dir : wm_orientation)
    (size : Int) : Option wm_world :=
  (wm_splitter_resize_window world.spl idx dir size).map
    (fun cs => ⟨{ world.spl with children := cs }, world.outside⟩)

/-! ### `wm_splitter_remove` (lines 56-101) -/

/-- `wm_splitter_find_child` (lines 516-526): index of the first child whose
identity matches; C compares pointers, the model compares identities. -/
def find_child_nat : List Nat → Nat → Option Nat
  | [], _ => none
  | x :: xs, w => if x = w then some 0 else (find_child_nat xs w).map (· + 1)

/-- `wm_splitter_array_remove` (lines 528-543): the element at index `i` is
dropped and the suffix shifts down. -/
def array_remove_at {α : Type} (cs : List α) (i : Nat) : List α :=
  cs.take i ++ cs.drop (i + 1)

/-- `wm_splitter_remove` (lines 56-101) at the level of one splitter's child
list, children given by their identities.  Returns the remaining child list
and the window passed to `wm_focus`, or `none` when the window is not a child.
With at least two children left, focus (when the removed window had it) goes
to `splitter->children[0]` (line 95).  On collapse to a single child, with a
parent, the survivor replaces the splitter in the parent and receives focus if
the removed window had it (lines 74-89); without a parent the survivor becomes
the new main window via `wm_new_main` (line 91). -/
def wm_splitter_remove (children : List Nat) (w : Nat) (need_focus : Bool)
    (has_parent : Bool) : Option (List Nat × Option Nat) :=
  match find_child_nat children w with
  | none => none
  | some i =>
    let cs := array_remove_at children i
    if cs.length = 1 then
      let child := cs.headD 0
      some ([child], if has_parent ∧ need_focus then some child else none)
    else
      some (cs, if need_focus then some (cs.headD 0) else none)

/-! ### `wm_splitter_split` (lines 224-275) -/

/-- Window tree nodes for `wm_splitter_split`: a pane or a nested splitter,
each carrying its identity (the C pointer value). -/
inductive WmWin where
  | pane (id : Nat)
  | mksplit (id : Nat) (o : wm_orientation) (children : List WmWin)

/-- The identity of a node. -/
def WmWin.wid : WmWin → Nat
  | .pane i => i
  | .mksplit i _ _ => i

/-- `wm_splitter_find_child` over tree nodes (pointer identity = `wid`). -/
def find_wm : List WmWin → WmWin → Option Nat
  | [], _ => none
  | x :: xs, w => if x.wid = w.wid then some 0 else (find_wm xs w).map (· + 1)

/-- `wm_splitter_array_remove` over tree nodes; a missing child leaves the
list unchanged (the error return is ignored at the call site, line 256). -/
def remove_wm (cs : List WmWin) (w : WmWin) : List WmWin :=
  match find_wm cs w with
  | none => cs
  | some i => array_remove_at cs i

/-- The insertion of `obj` at index `pos` (lines 263-272; the array doubling
of lines 263-267 is invisible in the list model).  The shift loop
`for (i = pos; i < num_children; ++i) children[i+1] = children[i];` copies
upward in ASCENDING order: its first iteration writes the element at `pos`
into slot `pos + 1`, the next iteration copies that copy onward, and so on,
so after the loop every slot past `pos` holds the element originally at
`pos`; then `children[pos] = obj` and the count grows by one.  Only when at
most one element follows `pos` does this coincide with a correct insertion. -/
def insert_child (cs : List WmWin) (pos : Nat) (obj : WmWin) : List WmWin :=
  cs.take pos ++ obj :: List.replicate (cs.length - pos) (cs.getD pos (WmWin.pane 0))

/-- `wm_splitter_split` (lines 224-275) on the child list of a splitter with
orientation `spl_o`.  `window` is the split target (`none` = NULL = append),
`fresh` the identity of the intermediate splitter that `wm_splitter_create`
mallocs on an orientation change.  `none` models the `-1` error returns.  On
an orientation change the target is removed, the two recursive calls of lines
257-258 build the intermediate splitter's children, and the new splitter is
inserted at `pos - 1`, the target's old slot (line 260). -/
def wm_splitter_split (spl_o : wm_orientation) (children : List WmWin)
    (window : Option WmWin) (new_window : WmWin) (o : wm_orientation)
    (fresh : Nat) : Option (List WmWin) :=
  match window with
  | some w =>
    match find_wm children w with
    | none => none
    | some i =>
      if o = spl_o then
        some (insert_child children (i + 1) new_window)
      else
        let base := remove_wm children w
        match wm_splitter_split o [] none w o fresh with
        | none => none
        | some cs1 =>
          match wm_splitter_split o cs1 (some w) new_window o fresh with
          | none => none
          | some cs2 => some (insert_child base i (.mksplit fresh o cs2))
  | none =>
    if o = spl_o then some (insert_child children children.length new_window)
    else none
termination_by if o = spl_o then 0 else 1
decreasing_by all_goals simp_all

/-! ## Helper lemmas -/

theorem find_child_nat_lt {children : List Nat} {w i : Nat}
    (h : find_child_nat children w = some i) : i < children.length := by
  induction children generalizing i with
  | nil => simp [find_child_nat] at h
  | cons x xs ih =>
    rw [find_child_nat] at h
    split at h
    · simp at h
      simp only [List.length_cons]
      omega
    · cases hf : find_child_nat xs w with
      | none => rw [hf] at h; simp at h
      | some j =>
        rw [hf] at h
        simp at h
        have := ih hf
        simp only [List.length_cons]
        omega

theorem array_remove_at_length {α : Type} (cs : List α) (i : Nat)
    (h : i < cs.length) : (array_remove_at cs i).length = cs.length - 1 := by
  simp [array_remove_at, List.length_take, List.length_drop]
  omega

/-! ## Claim C8: does `scr_refresh` mutate the scroller? -/

/-- C8 (counterexample to the claim as stated): rendering a scroller whose
buffer holds the single line "ab" on a 1 x 5 canvas overwrites the viewport
column: `current.c` is 0 before `scr_refresh` and 2 after (line 425 of
scroller.c assigns `scr->current.c = total_length` while drawing), so render
is not state-preserving. -/
theorem c8_counterexample :
    scr_refresh ⟨[[97, 98]], 0, 0, 0, 1, 5⟩ true ≠ ⟨[[97, 98]], 0, 0, 0, 1, 5⟩ ∧
    (scr_refresh ⟨[[97, 98]], 0, 0, 0, 1, 5⟩ true).c = 2 ∧
    (⟨[[97, 98]], 0, 0, 0, 1, 5⟩ : Scroller).c = 0 := by
  have hseg : segLoop [97, 98] 0 0 0 = 2 := by
    rw [segLoop]
    simp +decide [nextLb, List.findIdx_cons, List.findIdx_nil]
    rw [segLoop]
    simp +decide [nextLb, List.findIdx_cons, List.findIdx_nil]
  have hscan : scanLength [97, 98] = 2 := by
    rw [scanLength]; norm_num; rw [scanLength]; norm_num; rw [scanLength]
  have hlh : get_line_height [97, 98] 5 = 1 := by
    rw [get_line_height, hscan, heightGo]; norm_num
  have h2 : (scr_refresh ⟨[[97, 98]], 0, 0, 0, 1, 5⟩ true).c = 2 := by
    rw [scr_refresh]
    norm_num [snapc]
    rw [refreshLoop]
    norm_num [hseg, hlh]
    rw [refreshLoop]
    norm_num
  refine ⟨fun h => ?_, h2, rfl⟩
  rw [h] at h2
  simp at h2

/-- C8 (amended): `scr_refresh(scr, focus)` leaves the line buffer, the
viewport row `current.r` and the caret `current.pos` unchanged (as well as the
canvas geometry); only the viewport column `current.c` may be rewritten. -/
theorem c8_refresh_preserves_buffer_row_pos (scr : Scroller) (focus : Bool) :
    (scr_refresh scr focus).buffer = scr.buffer ∧
    (scr_refresh scr focus).r = scr.r ∧
    (scr_refresh scr focus).pos = scr.pos ∧
    (scr_refresh scr focus).height = scr.height ∧
    (scr_refresh scr focus).width = scr.width := by
  simp [scr_refresh]

/-! ## Claim C9: `wm_splitter_split` with a NULL target -/

/-- C9: splitting with a NULL target window returns an error when the
requested orientation differs from the splitter's, and otherwise appends the
new window as the last child (insertion position = old child count). -/
theorem c9_split_null_window (spl_o : wm_orientation) (children : List WmWin)
    (nw : WmWin) (o : wm_orientation) (fresh : Nat) :
    wm_splitter_split spl_o children none nw o fresh =
      if o = spl_o then some (children ++ [nw]) else none := by
  rw [wm_splitter_split]
  split
  · simp [insert_child, List.take_length, List.drop_length]
  · rfl

/-! ## Claim C1: focus after removal from a splitter with ≥ 3 children -/

/-- C1 (counterexample to the claim as stated): removing the focused middle
child 20 of `[10, 20, 30]` focuses `children[0] = 10` (line 95 of
wm_splitter.c), not the new child 30 occupying the removed slot's old index 1,
which the claim demands. -/
theorem c1_counterexample :
    wm_splitter_remove [10, 20, 30] 20 true true = some ([10, 30], some 10) ∧
    ([10, 30] : List Nat).getD 1 0 = 30 ∧ (10 : Nat) ≠ 30 := by
  refine ⟨by decide, by decide, by decide⟩

/-- C1 (amended): when the containing splitter had at least 3 children and the
removed window was focused, focus moves to the splitter's first remaining
child `children[0]`, regardless of the removed window's index. -/
theorem c1_remove_focus_first (children : List Nat) (w : Nat) (i : Nat)
    (hp : Bool) (hfind : find_child_nat children w = some i)
    (hlen : 3 ≤ children.length) :
    wm_splitter_remove children w true hp =
      some (array_remove_at children i,
            some ((array_remove_at children i).headD 0)) := by
  have hi := find_child_nat_lt hfind
  have hrl := array_remove_at_length children i hi
  unfold wm_splitter_remove
  rw [hfind]
  have hne : ¬ (array_remove_at children i).length = 1 := by omega
  simp [hne]

/-- C1 witness: the amended theorem applied to the concrete removal of the
focused middle child of `[10, 20, 30]`. -/
theorem c1_witness :
    wm_splitter_remove [10, 20, 30] 20 true true =
      some (array_remove_at [10, 20, 30] 1,
            some ((array_remove_at [10, 20, 30] 1).headD 0)) :=
  c1_remove_focus_first [10, 20, 30] 20 1 true (by decide) (by decide)

/-! ## Claim C10: positive line heights and termination of the render loop -/

/-- C10: `get_line_height` returns at least 1 for every line and width ≥ 1,
and consequently every iteration of the bottom-up drawing loop of
`scr_refresh` consumes at least one visual row, so the loop runs at most
`height + 1 - nlines` iterations from counter value `nlines` — in particular
it terminates for every scroller state. -/
theorem c10_render_loop_terminates :
    (∀ (line : List Nat) (w : Nat), 1 ≤ w → 1 ≤ get_line_height line w) ∧
    (∀ (scr : Scroller) (row : Int) (nlines c : Nat),
      (refreshLoop scr row nlines c).2 ≤ scr.height + 1 - nlines) := by
  constructor
  · exact fun line w _ => one_le_get_line_height line w
  · intro scr row nlines c
    induction row, nlines, c using refreshLoop.induct scr with
    | case1 row nlines c h hrow ih =>
      rw [refreshLoop]
      simp only [dif_pos h, if_pos hrow]
      omega
    | case2 row nlines c h hrow line c2 ih =>
      rw [refreshLoop]
      simp only [dif_pos h, if_neg hrow]
      unfold c2 at ih
      unfold line at ih
      have h1 := one_le_get_line_height (scr.buffer.getD row.toNat []) scr.width
      omega
    | case3 row nlines c h =>
      rw [refreshLoop]
      rw [dif_neg h]
      omega

/-- C10 witness: the first part of the theorem at a concrete line and width. -/
theorem c10_witness : 1 ≤ get_line_height [97] 3 :=
  c10_render_loop_terminates.1 [97] 3 (by decide)

/-! ## Claim C2: area conservation of `wm_splitter_layout` -/

theorem bumpLoop_conserve (my minv rem : Int) :
    (bumpLoop my minv rem).1 + (bumpLoop my minv rem).2 = my + rem := by
  induction my, minv, rem using bumpLoop.induct with
  | case1 my minv rem h ih => rw [bumpLoop, if_pos h]; omega
  | case2 my minv rem h => rw [bumpLoop, if_neg h]

theorem get_dimension_place_child (o : wm_orientation) (wtop wleft wh ww : Int)
    (w : wm_window) (position my : Int) :
    get_dimension o (place_child o wtop wleft wh ww w position my) = my := by
  cases o <;> simp [get_dimension, place_child]

theorem dimSum_cons (o : wm_orientation) (x : wm_window) (l : List wm_window) :
    dimSum o (x :: l) = get_dimension o x + dimSum o l := by
  simp [dimSum]

theorem map_snd_zip_of_length_eq {α β : Type} :
    ∀ (l₁ : List α) (l₂ : List β), l₁.length = l₂.length →
      (l₁.zip l₂).map Prod.snd = l₂
  | [], [], _ => rfl
  | [], _ :: _, h => by simp at h
  | _ :: _, [], h => by simp at h
  | a :: l₁, b :: l₂, h => by
    simp only [List.zip_cons_cons, List.map_cons]
    rw [map_snd_zip_of_length_eq l₁ l₂ (by simpa using h)]

theorem placeLoop_dimSum (o : wm_orientation) (wtop wleft wh ww : Int) :
    ∀ (pairs : List (wm_window × Int)) (position rem : Int), pairs ≠ [] →
      dimSum o (placeLoop o wtop wleft wh ww pairs position rem) =
        (pairs.map Prod.snd).sum + rem
  | [], _, _, h => absurd rfl h
  | (w, sz) :: rest, position, rem, _ => by
    rw [placeLoop]
    rcases hb : bumpLoop sz (wm_splitter_min_dimension o w) rem with ⟨b1, b2⟩
    have hbc := bumpLoop_conserve sz (wm_splitter_min_dimension o w) rem
    rw [hb] at hbc
    simp only [Prod.fst, Prod.snd] at hbc
    simp only [hb]
    by_cases hrest : rest = []
    · subst hrest
      by_cases hz : b2 = 0
      · rw [if_neg (by simp [hz])]
        simp only [placeLoop, dimSum_cons, get_dimension_place_child]
        simp [dimSum]
        omega
      · rw [if_pos (by simp [hz])]
        simp only [placeLoop, dimSum_cons, get_dimension_place_child]
        simp [dimSum]
        omega
    · have hif : ¬(b2 ≠ 0 ∧ rest = []) := by simp [hrest]
      rw [if_neg hif]
      rw [dimSum_cons, get_dimension_place_child,
        placeLoop_dimSum o wtop wleft wh ww rest _ _ hrest]
      simp only [List.map_cons, List.sum_cons]
      omega

theorem sum_map_const {α : Type} (l : List α) (x : Int) :
    (l.map (fun _ => x)).sum = (l.length : Int) * x := by
  induction l with
  | nil => simp
  | cons a l ih => simp [ih]; ring

/-- C2 (counterexample input): a horizontal splitter of height 10 with three
freshly created (1 x 1, minimum 1) children, which triggers the
redistribution fallback. -/
def splC2 : wm_splitter :=
  ⟨.horizontal, 0, 0, 10, 20,
    [⟨0, 0, 1, 1, 1, 1⟩, ⟨0, 0, 1, 1, 1, 1⟩, ⟨0, 0, 1, 1, 1, 1⟩]⟩

/-- C2 (counterexample to the claim as stated): on the redistribution fallback
the C sets `sum` to the whole dimension (line 388), so the remainder is zero
and each of the 3 children of a height-10 horizontal splitter gets
`10 / 3 = 3` rows: the children sum to 9, not to the splitter's dimension 10
demanded by the claim. -/
theorem c2_counterexample :
    layout_redistribute splC2 = true ∧
    dimSum splC2.orientation (wm_splitter_layout splC2) = 9 ∧
    layout_avail splC2 = 10 ∧ ((9 : Int) ≠ 10) := by
  have hred : layout_redistribute splC2 = true := by
    simp +decide [layout_redistribute, splC2]
  have hb : bumpLoop 3 1 0 = (3, 0) := by rw [bumpLoop]; norm_num
  refine ⟨hred, ?_, by simp +decide [layout_avail, splC2], by decide⟩
  rw [wm_splitter_layout, hred]
  simp only [if_true]
  have ht : Int.tdiv 10 3 = 3 := by decide
  norm_num [splC2, layout_avail, placeLoop, ht, hb, wm_splitter_min_dimension,
    dimSum, get_dimension, place_child]

/-- C2 (amended): after `wm_splitter_layout`, on the proportional path the
children's dimensions along the orientation sum exactly to the available
space (the height for horizontal splits, the width minus `num_children - 1`
separator columns for vertical splits); on the equal-redistribution fallback
every child gets `avail / n` truncated and the sum is `n * (avail / n)`,
falling short of the available space by `avail mod n`. -/
theorem c2_layout_area (spl : wm_splitter) (hne : spl.children ≠ []) :
    (layout_redistribute spl = false →
      dimSum spl.orientation (wm_splitter_layout spl) = layout_avail spl) ∧
    (layout_redistribute spl = true →
      dimSum spl.orientation (wm_splitter_layout spl) =
        (spl.children.length : Int) *
          ((layout_avail spl).tdiv (spl.children.length : Int))) := by
  constructor
  · intro hred
    rw [wm_splitter_layout, hred]
    simp only [Bool.false_eq_true, if_false]
    rw [placeLoop_dimSum _ _ _ _ _ _ _ _ (by simpa using hne)]
    rw [map_snd_zip_of_length_eq _ _ (by simp)]
    omega
  · intro hred
    rw [wm_splitter_layout, hred]
    simp only [if_true]
    rw [placeLoop_dimSum _ _ _ _ _ _ _ _ (by simpa using hne)]
    rw [map_snd_zip_of_length_eq _ _ (by simp)]
    rw [sum_map_const]
    omega

/-- C2 witness: the amended theorem applied to a concrete vertical splitter of
width 11 with two children of widths 6 and 3 (proportional path: the children
are re-placed to widths 6 and 4, summing to the available 10 columns). -/
theorem c2_witness :
    dimSum (wm_splitter.mk .vertical 0 0 5 11
        [⟨0, 0, 5, 6, 1, 1⟩, ⟨0, 7, 5, 3, 1, 1⟩]).orientation
      (wm_splitter_layout (wm_splitter.mk .vertical 0 0 5 11
        [⟨0, 0, 5, 6, 1, 1⟩, ⟨0, 7, 5, 3, 1, 1⟩])) =
    layout_avail (wm_splitter.mk .vertical 0 0 5 11
        [⟨0, 0, 5, 6, 1, 1⟩, ⟨0, 7, 5, 3, 1, 1⟩]) :=
  (c2_layout_area _ (by decide)).1 (by simp +decide [layout_redistribute])

/-! ## Claim C6: the visual-height formula of `get_line_height` -/

theorem heightGo_succ (len w h : Nat) : heightGo len w (h + 1) = heightGo len w h + 1 := by
  induction len using Nat.strong_induction_on generalizing h with
  | _ len ih =>
    unfold heightGo
    split
    · rfl
    · split
      · rfl
      · exact ih (len - w) (by omega) (h + 1)

theorem heightGo_eq_ceil (w : Nat) (hw : 1 ≤ w) :
    ∀ L, heightGo L w 1 = max 1 ((L + w - 1) / w) := by
  intro L
  induction L using Nat.strong_induction_on with
  | _ L ih =>
    rw [heightGo]
    rw [if_neg (by omega)]
    by_cases hL : L ≤ w
    · rw [if_pos hL]
      have h2 : (L + w - 1) / w < 2 := by
        rw [Nat.div_lt_iff_lt_mul (by omega)]
        omega
      omega
    · rw [if_neg hL]
      rw [heightGo_succ (L - w) w 1]
      rw [ih (L - w) (by omega)]
      have e1 : L - w + w - 1 = L - 1 := by omega
      have e2 : L + w - 1 = (L - 1) + w := by omega
      rw [e1, e2, Nat.add_div_right _ (by omega)]
      have h3 : 1 ≤ (L - 1) / w := by
        rw [Nat.le_div_iff_mul_le (by omega)]
        omega
      omega

/-- The claim's stated visual-height formula `1 + max(0, ceil((L - W)/W) + 1)`
when `L > W` (else 1), written over naturals with `ceil(a/b) = (a + b - 1)/b`.
Kept only to compare the specification's words against the code. -/
def claimed_visual_height (L W : Nat) : Nat :=
  if W < L then 1 + max 0 ((L - W + W - 1) / W + 1) else 1

/-- C6 (counterexample to the claim as stated): the two-cell line "ab" on a
width-1 canvas has `get_line_height` 2 (which is `max(1, ceil(2/1))`), but the
claim's first formula yields `1 + max(0, ceil((2-1)/1) + 1) = 3`; the claimed
equality between the code and that formula (and between the two formulas)
fails at `L = 2, W = 1`. -/
theorem c6_counterexample :
    scanLength [97, 98] = 2 ∧
    get_line_height [97, 98] 1 = 2 ∧
    claimed_visual_height 2 1 = 3 ∧ (2 : Nat) ≠ 3 := by
  have hscan : scanLength [97, 98] = 2 := by
    rw [scanLength]; norm_num; rw [scanLength]; norm_num; rw [scanLength]
  refine ⟨hscan, ?_, by decide, by decide⟩
  rw [get_line_height, hscan]
  rw [heightGo]; norm_num
  rw [heightGo]; norm_num

/-- C6 (amended): for `W ≥ 1` the computed visual height is
`max(1, ceil(L/W))` (a zero-length line counted as 1), where `L` is the
printable-cell count after skipping recognized escape sequences; the claim's
other formula `1 + max(0, ceil((L - W)/W) + 1)` for `L > W` does not match the
code. -/
theorem c6_line_height_formula (l : List Nat) (w : Nat) (hw : 1 ≤ w) :
    get_line_height l w = max 1 ((scanLength l + w - 1) / w) := by
  rw [get_line_height]
  exact heightGo_eq_ceil w hw (scanLength l)

/-- C6 witness: the amended formula at the line "ab" on a width-5 canvas. -/
theorem c6_witness :
    get_line_height [97, 98] 5 = max 1 ((scanLength [97, 98] + 5 - 1) / 5) :=
  c6_line_height_formula [97, 98] 5 (by decide)

/-! ## Claim C3: locality of `wm_splitter_resize_window` -/

theorem get_dimension_set_position (o : wm_orientation) (w : wm_window) (v : Int) :
    get_dimension o (set_position o w v) = get_dimension o w := by
  cases o <;> simp [get_dimension, set_position]

theorem get_dimension_set_dimension (o : wm_orientation) (w : wm_window) (v : Int) :
    get_dimension o (set_dimension o w v) = v := by
  cases o <;> simp [get_dimension, set_dimension]

theorem dimSum_modIdx (o : wm_orientation) (f : wm_window → wm_window) (d : Int)
    (hf : ∀ w, get_dimension o (f w) = get_dimension o w + d) :
    ∀ (cs : List wm_window) (k : Nat), k < cs.length →
      dimSum o (modIdx cs k f) = dimSum o cs + d := by
  intro cs
  induction cs with
  | nil => intro k hk; simp at hk
  | cons x xs ih =>
    intro k hk
    cases k with
    | zero => simp [modIdx, dimSum_cons, hf]; ring
    | succ k =>
      simp only [modIdx, dimSum_cons]
      rw [ih k (by simpa using hk)]
      ring

theorem dimSum_mapIdx (o : wm_orientation) :
    ∀ (cs : List wm_window) (g : Nat → wm_window → wm_window),
      (∀ k w, get_dimension o (g k w) = get_dimension o w) →
      dimSum o (cs.mapIdx g) = dimSum o cs := by
  intro cs
  induction cs with
  | nil => intro g hg; rfl
  | cons x xs ih =>
    intro g hg
    rw [List.mapIdx_cons, dimSum_cons, dimSum_cons, hg, ih _ (fun k w => hg (k + 1) w)]

theorem dimSum_shiftRange (o : wm_orientation) (cs : List wm_window)
    (lo hi : Nat) (d : Int) : dimSum o (shiftRange o cs lo hi d) = dimSum o cs := by
  unfold shiftRange
  apply dimSum_mapIdx
  intro k w
  split
  · rw [get_dimension_set_position]
  · rfl

theorem dimSum_modIdx_dim_preserving (o : wm_orientation) (f : wm_window → wm_window)
    (hf : ∀ w, get_dimension o (f w) = get_dimension o w) :
    ∀ (cs : List wm_window) (k : Nat), dimSum o (modIdx cs k f) = dimSum o cs := by
  intro cs
  induction cs with
  | nil => intro k; rfl
  | cons x xs ih =>
    intro k
    cases k with
    | zero => simp [modIdx, dimSum_cons, hf]
    | succ k => simp only [modIdx, dimSum_cons, ih]

theorem dimSum_modIdx_addDim (o : wm_orientation) (cs : List wm_window) (k : Nat)
    (d : Int) (hk : k < cs.length) :
    dimSum o (modIdx cs k (fun w => set_dimension o w (get_dimension o w + d))) =
      dimSum o cs + d :=
  dimSum_modIdx o _ d (fun w => get_dimension_set_dimension o w _) cs k hk

theorem dimSum_modIdx_subDim (o : wm_orientation) (cs : List wm_window) (k : Nat)
    (d : Int) (hk : k < cs.length) :
    dimSum o (modIdx cs k (fun w => set_dimension o w (get_dimension o w - d))) =
      dimSum o cs - d := by
  have := dimSum_modIdx o (fun w => set_dimension o w (get_dimension o w - d)) (-d)
    (fun w => by rw [get_dimension_set_dimension]; ring) cs k hk
  rw [this]
  ring

theorem dimSum_modIdx_addPos (o : wm_orientation) (cs : List wm_window) (k : Nat)
    (d : Int) :
    dimSum o (modIdx cs k (fun w => set_position o w (get_position o w + d))) =
      dimSum o cs :=
  dimSum_modIdx_dim_preserving o _ (fun w => get_dimension_set_position o w _) cs k

theorem dimSum_modIdx_subPos (o : wm_orientation) (cs : List wm_window) (k : Nat)
    (d : Int) :
    dimSum o (modIdx cs k (fun w => set_position o w (get_position o w - d))) =
      dimSum o cs :=
  dimSum_modIdx_dim_preserving o _ (fun w => get_dimension_set_position o w _) cs k

theorem borrowSucc_invariant (o : wm_orientation) (idx : Nat) (desired : Int) :
    ∀ (cs : List wm_window) (actual : Int) (j : Nat), idx < cs.length →
      dimSum o (borrowSucc o idx desired cs actual j).1 = dimSum o cs ∧
      (borrowSucc o idx desired cs actual j).1.length = cs.length := by
  intro cs actual j
  induction cs, actual, j using borrowSucc.induct o idx desired with
  | case1 cs actual j h cj avail tc cs1 cs2 cs3 cs4 ih =>
    intro hidx
    rw [borrowSucc]
    simp only [dif_pos h]
    unfold cs4 cs3 cs2 cs1 tc avail cj at ih
    simp only [dite_eq_ite] at ih
    obtain ⟨ih1, ih2⟩ := ih (by
      simp only [shiftRange_length, modIdx_length]
      exact hidx)
    constructor
    · rw [ih1, dimSum_shiftRange,
        dimSum_modIdx_addDim o _ idx _ (by simp only [modIdx_length]; exact hidx),
        dimSum_modIdx_subDim o _ j _ (by simp only [modIdx_length]; exact h.2),
        dimSum_modIdx_addPos]
      ring
    · rw [ih2]
      simp only [shiftRange_length, modIdx_length]
  | case2 cs actual j h =>
    intro hidx
    rw [borrowSucc]
    simp only [dif_neg h]
    exact ⟨trivial, trivial⟩

theorem borrowPred_invariant (o : wm_orientation) (idx : Nat) (desired : Int) :
    ∀ (cs : List wm_window) (actual : Int) (j : Nat), idx < cs.length →
      j < cs.length →
      dimSum o (borrowPred o idx desired cs actual j).1 = dimSum o cs ∧
      (borrowPred o idx desired cs actual j).1.length = cs.length := by
  intro cs actual j
  induction cs, actual, j using borrowPred.induct o idx desired with
  | case1 cs actual h =>
    intro hidx hj
    rw [borrowPred]
    simp only [if_pos h]
    constructor
    · rw [dimSum_shiftRange,
        dimSum_modIdx_addDim o _ idx _ (by simp only [modIdx_length]; exact hidx),
        dimSum_modIdx_subPos,
        dimSum_modIdx_subDim o _ 0 _ hj]
      ring
    · simp only [shiftRange_length, modIdx_length]
  | case2 cs actual h n cj avail tc cs1 cs2 cs3 cs4 ih =>
    intro hidx hj
    rw [borrowPred]
    simp only [if_pos h]
    unfold cs4 cs3 cs2 cs1 tc avail cj at ih
    simp only [dite_eq_ite] at ih
    obtain ⟨ih1, ih2⟩ := ih
      (by simp only [shiftRange_length, modIdx_length]; exact hidx)
      (by simp only [shiftRange_length, modIdx_length]; omega)
    constructor
    · rw [ih1, dimSum_shiftRange,
        dimSum_modIdx_addDim o _ idx _ (by simp only [modIdx_length]; exact hidx),
        dimSum_modIdx_subPos,
        dimSum_modIdx_subDim o _ (n + 1) _ hj]
      ring
    · rw [ih2]
      simp only [shiftRange_length, modIdx_length]
  | case3 cs actual j h =>
    intro hidx hj
    rw [borrowPred]
    simp only [if_neg h]
    exact ⟨trivial, trivial⟩

theorem resize_shrink_dimSum (spl : wm_splitter) (idx : Nat) (desired : Int)
    (hidx : idx < spl.children.length) (hn : spl.children.length ≠ 1) :
    dimSum spl.orientation (resize_shrink spl idx desired) =
      dimSum spl.orientation spl.children := by
  rw [resize_shrink]
  by_cases hw : idx + 1 = spl.children.length
  · simp only [hw, if_true, if_pos hw]
    rw [dimSum_modIdx_subPos,
      dimSum_modIdx_addDim _ _ idx _ (by simp only [modIdx_length]; exact hidx),
      dimSum_modIdx_subDim _ _ _ _ (by omega)]
    ring
  · simp only [hw, if_false, if_neg hw]
    rw [dimSum_modIdx_addPos,
      dimSum_modIdx_addDim _ _ idx _ (by simp only [modIdx_length]; exact hidx),
      dimSum_modIdx_subDim _ _ _ _ (by omega)]
    ring

theorem resize_grow_dimSum (spl : wm_splitter) (idx : Nat) (desired : Int)
    (hidx : idx < spl.children.length) :
    dimSum spl.orientation (resize_grow spl idx desired) =
      dimSum spl.orientation spl.children := by
  rw [resize_grow]
  have hs := borrowSucc_invariant spl.orientation idx desired
    spl.children 0 (idx + 1) hidx
  by_cases h0 : idx = 0
  · subst h0
    rw [if_pos rfl]
    exact (borrowSucc_invariant spl.orientation 0 desired
      spl.children 0 (0 + 1) hidx).1
  · simp only [h0, if_false, if_neg h0]
    have hp := borrowPred_invariant spl.orientation idx desired
      (borrowSucc spl.orientation idx desired spl.children 0 (idx + 1)).1
      (borrowSucc spl.orientation idx desired spl.children 0 (idx + 1)).2 (idx - 1)
      (by rw [hs.2]; exact hidx) (by rw [hs.2]; omega)
    rw [hp.1, hs.1]

theorem resize_some_dimSum (spl : wm_splitter) (idx : Nat) (dir : wm_orientation)
    (size : Int) (cs : List wm_window)
    (h : wm_splitter_resize_window spl idx dir size = some cs) :
    dimSum spl.orientation cs = dimSum spl.orientation spl.children := by
  rw [wm_splitter_resize_window] at h
  split_ifs at h with h1 h2 h3 h4 h5
  · simp only [Option.some.injEq] at h
    subst h
    rfl
  · simp only [Option.some.injEq] at h
    subst h
    exact resize_shrink_dimSum spl idx _ h4 h1
  · simp only [Option.some.injEq] at h
    subst h
    exact resize_grow_dimSum spl idx _ h4

/-- C3: for every pane in a splitter and any axis and size,
`wm_splitter_resize_window` leaves the total of the child dimensions along the
splitter's orientation unchanged, and leaves every window that is not a child
of the splitter untouched; on the error paths (`-1` returns) nothing changes
at all. -/
theorem c3_resize_locality (world : wm_world) (idx : Nat) (dir : wm_orientation)
    (size : Int) :
    dimSum world.spl.orientation
        ((wm_resize_world world idx dir size).getD world).spl.children =
      dimSum world.spl.orientation world.spl.children ∧
    ((wm_resize_world world idx dir size).getD world).outside = world.outside := by
  cases h : wm_splitter_resize_window world.spl idx dir size with
  | none => simp [wm_resize_world, h]
  | some cs =>
    constructor
    · simp only [wm_resize_world, h, Option.map_some', Option.getD_some]
      exact resize_some_dimSum world.spl idx dir size cs h
    · simp [wm_resize_world, h]

/-! ## Claim C4: `wm_splitter_split` with a found target window -/

/-- C4 (code bug, evaluated at the failing input): the claim describes the
evident intent of `wm_splitter_split` — insert the new window immediately
after the target — but the shift loop of lines 268-270 copies upward in
ascending order, overwriting every slot past the insertion point with the
child originally at that point.  Splitting the first of three panes with the
splitter's own orientation, the code produces
`[pane 1, pane 4, pane 2, pane 2]` — `pane 2` duplicated, `pane 3` lost —
where the claim requires `[pane 1, pane 4, pane 2, pane 3]`. -/
theorem c4_split_shift_bug :
    wm_splitter_split .horizontal [WmWin.pane 1, WmWin.pane 2, WmWin.pane 3]
        (some (WmWin.pane 1)) (WmWin.pane 4) .horizontal 9 =
      some [WmWin.pane 1, WmWin.pane 4, WmWin.pane 2, WmWin.pane 2] ∧
    ([WmWin.pane 1, WmWin.pane 4, WmWin.pane 2, WmWin.pane 2] : List WmWin) ≠
      [WmWin.pane 1, WmWin.pane 4, WmWin.pane 2, WmWin.pane 3] := by
  constructor
  · rw [wm_splitter_split]
    have hf : find_wm [WmWin.pane 1, WmWin.pane 2, WmWin.pane 3] (WmWin.pane 1) =
        some 0 := by simp [find_wm, WmWin.wid]
    simp only [hf]
    simp [insert_child]
  · intro h
    simp at h

/-! ## Claim C5: the character interpreter of `parse` -/

theorem writeAt_getD_self (l : List Nat) (i : Nat) (c : Nat) :
    (writeAt l i c).getD i 0 = c := by
  unfold writeAt
  split
  · next h => simp [List.getD_eq_getElem?_getD, List.getElem?_set_self', h]
  · next h =>
    have hlen : (l ++ List.replicate (i - l.length) 0).length = i := by
      simp
      omega
    rw [List.getD_append_right _ _ _ _ (le_of_eq hlen)]
    simp [hlen]

theorem getD_replicate_zero (k n : Nat) : (List.replicate k (0 : Nat)).getD n 0 = 0 := by
  by_cases h : n < k
  · simp [List.getD_eq_getElem?_getD, List.getElem?_replicate, h]
  · rw [List.getD_eq_default _ _ (by simp; omega)]

theorem writeAt_getD_ne (l : List Nat) (i : Nat) (c : Nat) (j : Nat) (h : j ≠ i) :
    (writeAt l i c).getD j 0 = l.getD j 0 := by
  unfold writeAt
  split
  · simp [List.getD_eq_getElem?_getD, List.getElem?_set_ne (Ne.symm h)]
  · next hi =>
    by_cases hj : j < l.length
    · rw [List.getD_append _ _ _ _ (by simp; omega), List.getD_append _ _ _ _ hj]
    · rw [List.getD_eq_default l _ (by omega)]
      by_cases hj2 : j < i
      · rw [List.getD_append _ _ _ _ (by simp; omega),
          List.getD_append_right _ _ _ _ (by omega),
          getD_replicate_zero]
      · rw [List.getD_eq_default _ _ (by simp; omega)]

theorem tabFill_spec : ∀ (n : Nat) (l : List Nat) (i : Nat), 8 - i % 8 ≤ n →
    (tabFill l i).2 % 8 = 0 ∧ i < (tabFill l i).2 ∧
    (∀ j, j < i → (tabFill l i).1.getD j 0 = l.getD j 0) ∧
    (tabFill l i).1.getD i 0 = 32 := by
  intro n
  induction n with
  | zero => intro l i h; omega
  | succ n ih =>
    intro l i hn
    rw [tabFill]
    by_cases hc : (i + 1) % 8 = 0
    · simp only [if_pos hc]
      exact ⟨hc, by omega,
        fun j hj => writeAt_getD_ne l i 32 j (by omega),
        writeAt_getD_self l i 32⟩
    · simp only [if_neg hc]
      have hrec := ih (writeAt l i 32) (i + 1) (by omega)
      refine ⟨hrec.1, by omega, ?_, ?_⟩
      · intro j hj
        rw [hrec.2.2.1 j (by omega), writeAt_getD_ne l i 32 j (by omega)]
      · rw [hrec.2.2.1 i (by omega), writeAt_getD_self]

theorem trimStop_le (rv : List Nat) (i : Nat) : ∀ jp, trimStop rv i jp ≤ jp := by
  intro jp
  induction jp using Nat.strong_induction_on with
  | _ jp ih =>
    rw [trimStop]
    split
    · next hc => exact Nat.le_trans (ih (jp - 1) (by omega)) (by omega)
    · exact Nat.le_refl jp

theorem trimStop_facts (rv : List Nat) (i : Nat) : ∀ jp,
    (∀ k, trimStop rv i jp ≤ k → k < jp → isspaceB (rv.getD k 0) = true) ∧
    (trimStop rv i jp < jp → i + 1 ≤ trimStop rv i jp) ∧
    (i + 1 < trimStop rv i jp → isspaceB (rv.getD (trimStop rv i jp - 1) 0) = false) := by
  intro jp
  induction jp using Nat.strong_induction_on with
  | _ jp ih =>
    rw [trimStop]
    split
    · next hc =>
      have hlt : jp - 1 < jp := by omega
      have hle := trimStop_le rv i (jp - 1)
      obtain ⟨ih1, ih2, ih3⟩ := ih (jp - 1) hlt
      refine ⟨?_, ?_, ih3⟩
      · intro k hk1 hk2
        by_cases hk3 : k < jp - 1
        · exact ih1 k hk1 hk3
        · have : k = jp - 1 := by omega
          rw [this]
          exact hc.2
      · intro _
        by_cases h2 : trimStop rv i (jp - 1) < jp - 1
        · exact ih2 h2
        · omega
    · next hc =>
      refine ⟨fun k hk1 hk2 => absurd (Nat.lt_of_le_of_lt hk1 hk2) (by omega),
        fun h => absurd h (by omega), fun h => ?_⟩
      rw [not_and_or] at hc
      rcases hc with hc | hc
      · omega
      · simpa using hc

theorem getD_take (l : List Nat) (m k : Nat) (hk : k < m) :
    (l.take m).getD k 0 = l.getD k 0 := by
  simp [List.getD_eq_getElem?_getD, List.getElem?_take, hk]

theorem strlenL_le_length (l : List Nat) : strlenL l ≤ l.length :=
  List.findIdx_le_length _

theorem takeWhile_prefix_take (l : List Nat) :
    ∀ jp, jp ≤ strlenL l → (l.take jp).takeWhile (· != 0) = l.take jp := by
  induction l with
  | nil => intro jp _; simp
  | cons b rest ih =>
    intro jp hjp
    cases jp with
    | zero => simp
    | succ k =>
      have hb : ¬(b == 0) = true := by
        intro hb0
        rw [strlenL, List.findIdx_cons, hb0] at hjp
        simp at hjp
      have hb2 : strlenL (b :: rest) = strlenL rest + 1 := by
        rw [strlenL, strlenL, List.findIdx_cons]
        rw [Bool.cond_eq_if, if_neg hb]
      rw [List.take_cons, List.takeWhile_cons]
      rw [if_pos (by simpa using hb)]
      simp only [Nat.add_sub_cancel]
      rw [ih k (by omega)]
      omega

theorem trim_spec (rv : List Nat) (i : Nat) :
    (∃ t, rv.take (strlenL rv) = rv.take (trimStop rv i (strlenL rv)) ++ t ∧
      (∀ b ∈ t, isspaceB b = true) ∧
      (t ≠ [] → i + 1 ≤ (rv.take (trimStop rv i (strlenL rv))).length)) ∧
    (i + 1 < (rv.take (trimStop rv i (strlenL rv))).length →
      isspaceB ((rv.take (trimStop rv i (strlenL rv))).getD
        ((rv.take (trimStop rv i (strlenL rv))).length - 1) 0) = false) := by
  have hle : trimStop rv i (strlenL rv) ≤ strlenL rv := trimStop_le rv i (strlenL rv)
  have hsl : strlenL rv ≤ rv.length := strlenL_le_length rv
  have hlen_take : (rv.take (trimStop rv i (strlenL rv))).length =
      trimStop rv i (strlenL rv) := by
    simp [List.length_take]
    omega
  obtain ⟨hws, hge, hstop⟩ := trimStop_facts rv i (strlenL rv)
  constructor
  · refine ⟨(rv.take (strlenL rv)).drop (trimStop rv i (strlenL rv)), ?_, ?_, ?_⟩
    · conv_lhs => rw [← List.take_append_drop (trimStop rv i (strlenL rv))
        (rv.take (strlenL rv))]
      congr 1
      rw [List.take_take]
      congr 1
      omega
    · intro b hb
      rw [List.mem_iff_getElem] at hb
      obtain ⟨k, hk, hbk⟩ := hb
      have hdl : ((rv.take (strlenL rv)).drop (trimStop rv i (strlenL rv))).length =
          strlenL rv - trimStop rv i (strlenL rv) := by
        simp [List.length_drop, List.length_take]
        omega
      have hk2 : trimStop rv i (strlenL rv) + k < strlenL rv := by omega
      have hb2 : b = rv.getD (trimStop rv i (strlenL rv) + k) 0 := by
        rw [← hbk, List.getElem_drop, List.getElem_take,
          List.getD_eq_getElem _ _ (by omega)]
      rw [hb2]
      exact hws (trimStop rv i (strlenL rv) + k) (by omega) hk2
    · intro ht
      have hlt : trimStop rv i (strlenL rv) < strlenL rv := by
        by_contra hcon
        have heq : trimStop rv i (strlenL rv) = strlenL rv := by omega
        apply ht
        have hzero : ((rv.take (strlenL rv)).drop (trimStop rv i (strlenL rv))).length
            = 0 := by
          simp [List.length_drop, List.length_take]
          omega
        exact List.eq_nil_of_length_eq_zero hzero
      rw [hlen_take]
      exact hge hlt
  · intro hlt
    rw [hlen_take] at hlt ⊢
    rw [getD_take _ _ _ (by omega)]
    exact hstop hlt

/-- C5: the character interpreter obeys the claimed table: backspace (8) and
delete (127) retreat the caret only when it is positive and erase nothing; tab
(9) writes at least one space (the cell at the caret becomes a space, cells
before it are untouched) and leaves the caret at a multiple of 8; carriage
return (13) resets the caret to 0; a printable byte is written at the caret,
which advances by one; every other byte is ignored.  After a segment is
interpreted, a whitespace-only tail lying strictly beyond the caret is cut
from the line, and no trailing whitespace beyond the caret remains. -/
theorem c5_parse_character_table :
    (∀ (l : List Nat) (i b : Nat), b = 8 ∨ b = 127 →
      parseStep (l, i) b = (l, if 0 < i then i - 1 else i)) ∧
    (∀ (l : List Nat) (i : Nat),
      (parseStep (l, i) 9).2 % 8 = 0 ∧ i < (parseStep (l, i) 9).2 ∧
      (parseStep (l, i) 9).1.getD i 0 = 32 ∧
      (∀ j, j < i → (parseStep (l, i) 9).1.getD j 0 = l.getD j 0)) ∧
    (∀ (l : List Nat) (i : Nat), parseStep (l, i) 13 = (l, 0)) ∧
    (∀ (l : List Nat) (i b : Nat), isprintB b = true →
      parseStep (l, i) b = (writeAt l i b, i + 1)) ∧
    (∀ (l : List Nat) (i b : Nat), b ≠ 8 → b ≠ 9 → b ≠ 13 → b ≠ 127 →
      isprintB b = false → parseStep (l, i) b = (l, i)) ∧
    (∀ (orig : List Nat) (pos : Nat) (buf : List Nat),
      (∃ t, parse_untrimmed orig pos buf = (parse orig pos buf).1 ++ t ∧
        (∀ b ∈ t, isspaceB b = true) ∧
        (t ≠ [] → (parse orig pos buf).2 + 1 ≤ (parse orig pos buf).1.length)) ∧
      ((parse orig pos buf).2 + 1 < (parse orig pos buf).1.length →
        isspaceB ((parse orig pos buf).1.getD
          ((parse orig pos buf).1.length - 1) 0) = false)) := by
  refine ⟨?_, ?_, ?_, ?_, ?_, ?_⟩
  · intro l i b hb
    rcases hb with rfl | rfl <;> simp [parseStep]
  · intro l i
    have h9 : parseStep (l, i) 9 = tabFill l i := by simp [parseStep]
    rw [h9]
    obtain ⟨h1, h2, h3, h4⟩ := tabFill_spec (8 - i % 8) l i (Nat.le_refl _)
    exact ⟨h1, h2, h4, h3⟩
  · intro l i
    simp [parseStep]
  · intro l i b hb
    have hb2 : 32 ≤ b ∧ b ≤ 126 := by simpa [isprintB] using hb
    simp only [parseStep]
    rw [if_neg (by omega), if_neg (by omega), if_neg (by omega), if_pos hb]
  · intro l i b h8 h9 h13 h127 hpr
    simp only [parseStep]
    rw [if_neg (by omega), if_neg (by omega), if_neg (by omega),
      if_neg (by simp [hpr])]
  · intro orig pos buf
    simp only [parse, parse_untrimmed]
    rw [takeWhile_prefix_take _ _ (trimStop_le _ _ _)]
    exact trim_spec ((buf.takeWhile (· != 0)).foldl parseStep (orig, pos)).1
      ((buf.takeWhile (· != 0)).foldl parseStep (orig, pos)).2

/-- C5 witness: the backspace row of the table applied to the line "a" with
the caret at 1, and the printable row applied to writing "b" there. -/
theorem c5_witness :
    parseStep ([97], 1) 8 = ([97], if 0 < 1 then 1 - 1 else 1) ∧
    parseStep ([97], 1) 98 = (writeAt [97] 1 98, 1 + 1) :=
  ⟨c5_parse_character_table.1 [97] 1 8 (Or.inl rfl),
   c5_parse_character_table.2.2.2.1 [97] 1 98 (by decide)⟩

/-! ## Claim C7: `scr_end` idempotence and `scr_home` + `scr_down` vs `scr_end` -/

theorem downTicks_add (s : Scroller) (m n : Nat) :
    downTicks s (m + n) = downTicks (downTicks s m) n := by
  induction m generalizing s with
  | zero =>
    rw [Nat.zero_add]
    rfl
  | succ m ih =>
    have e : m + 1 + n = (m + n) + 1 := by omega
    rw [e]
    exact ih (scr_down s 1)

theorem down1_eq (scr : Scroller) (r c : Nat) (hdvd : scr.width ∣ c) :
    scr_down { scr with r := r, c := c } 1 =
      if (c : Int) < ((scr.buffer.getD r []).length : Int) - (scr.width : Int) then
        { scr with r := r, c := c + scr.width }
      else if r < scr.buffer.length - 1 then
        { scr with r := r + 1, c := 0 }
      else
        { scr with r := r, c := c } := by
  have hsnap : snapc c scr.width = c := by
    rcases hdvd with ⟨k, rfl⟩
    unfold snapc
    rw [if_neg]
    simp [Nat.mul_mod_right]
  simp [scr_down, scr_down_go, hsnap]

theorem climb (scr : Scroller) (hw : 1 ≤ scr.width) (r : Nat) :
    ∀ (d : Nat) (c : Nat), scr.width ∣ c →
      (c = 0 ∨ (c : Int) < ((scr.buffer.getD r []).length : Int)) →
      ((scr.buffer.getD r []).length : Int) - scr.width - c ≤ d →
      ∃ n c2, downTicks { scr with r := r, c := c } n = { scr with r := r, c := c2 } ∧
        scr.width ∣ c2 ∧
        ¬((c2 : Int) < ((scr.buffer.getD r []).length : Int) - (scr.width : Int)) ∧
        (c2 = 0 ∨ (c2 : Int) < ((scr.buffer.getD r []).length : Int)) := by
  intro d
  induction d with
  | zero =>
    intro c hc hc0 hd
    exact ⟨0, c, rfl, hc, by push_cast at hd ⊢; omega, hc0⟩
  | succ d ih =>
    intro c hc hc0 hd
    by_cases hcc : (c : Int) < ((scr.buffer.getD r []).length : Int) - (scr.width : Int)
    · obtain ⟨n, c2, hn, h2, h3, h4⟩ := ih (c + scr.width)
        (dvd_add hc dvd_rfl)
        (by right; push_cast at hcc ⊢; omega)
        (by push_cast at hd hcc ⊢; omega)
      refine ⟨n + 1, c2, ?_, h2, h3, h4⟩
      show downTicks (scr_down { scr with r := r, c := c } 1) n =
        { scr with r := r, c := c2 }
      rw [down1_eq scr r c hc, if_pos hcc]
      exact hn
    · exact ⟨0, c, rfl, hc, hcc, hc0⟩

theorem descend (scr : Scroller) (hw : 1 ≤ scr.width) :
    ∀ k, k < scr.buffer.length →
      ∃ n, downTicks (scr_home scr) n = { scr with r := k, c := 0 } := by
  intro k
  induction k with
  | zero => intro _; exact ⟨0, rfl⟩
  | succ k ih =>
    intro hk
    obtain ⟨n1, hn1⟩ := ih (by omega)
    obtain ⟨n2, c2, hn2, hdvd, hstuck, _⟩ :=
      climb scr hw k ((scr.buffer.getD k []).length) 0 (dvd_zero _)
        (Or.inl rfl) (by push_cast; omega)
    refine ⟨n1 + (n2 + 1), ?_⟩
    rw [downTicks_add, hn1, downTicks_add, hn2]
    show scr_down { scr with r := k, c := c2 } 1 = { scr with r := k + 1, c := 0 }
    rw [down1_eq scr k c2 hdvd, if_neg hstuck, if_pos (by omega)]

theorem stuck_col_eq (W L c2 : Nat) (hw : 1 ≤ W) (hdvd : W ∣ c2)
    (hge : ¬((c2 : Int) < (L : Int) - (W : Int))) (hor : c2 = 0 ∨ c2 < L)
    (hside : ¬(0 < L ∧ W ∣ L)) : c2 = L / W * W := by
  have hge2 : L ≤ c2 + W := by push_cast at hge; omega
  rcases hor with rfl | hlt
  · by_cases hL0 : L = 0
    · simp [hL0]
    · have hneq : L ≠ W := by
        intro h
        exact hside ⟨by omega, h ▸ dvd_refl W⟩
      have hLW : L < W := by omega
      rw [Nat.div_eq_of_lt hLW]
      simp
  · have hL0 : 0 < L := by omega
    have hndvd : ¬ W ∣ L := fun hd => hside ⟨hL0, hd⟩
    have hmodne : L % W ≠ 0 := fun h => hndvd (Nat.dvd_of_mod_eq_zero h)
    have hmodlt : L % W < W := Nat.mod_lt _ (by omega)
    have hdm : W * (L / W) + L % W = L := Nat.div_add_mod L W
    obtain ⟨a, rfl⟩ := hdvd
    have h1 : W * a < W * (L / W + 1) := by rw [Nat.mul_add, Nat.mul_one]; omega
    have h2 : W * (L / W) < W * (a + 1) := by rw [Nat.mul_add, Nat.mul_one]; omega
    have ha1 : a < L / W + 1 := Nat.lt_of_mul_lt_mul_left h1
    have hb1 : L / W < a + 1 := Nat.lt_of_mul_lt_mul_left h2
    have hab : a = L / W := by omega
    rw [hab, Nat.mul_comm]

/-- C7 (counterexample to the claim as stated): for the scroller whose single
line is "ab" on a width-2 canvas, `scr_down` from the home position is a
no-op (`0 < length - width` fails at `2 - 2 = 0`), so no number of
`scr_down(1)` ticks after `scr_home` reaches the `scr_end` cursor, whose
column is `(2 / 2) * 2 = 2`. -/
theorem c7_counterexample :
    ¬ ∃ n, (downTicks (scr_home ⟨[[97, 98]], 0, 0, 0, 5, 2⟩) n).r =
        (scr_end ⟨[[97, 98]], 0, 0, 0, 5, 2⟩).r ∧
      (downTicks (scr_home ⟨[[97, 98]], 0, 0, 0, 5, 2⟩) n).c =
        (scr_end ⟨[[97, 98]], 0, 0, 0, 5, 2⟩).c := by
  have hfix : scr_down (scr_home ⟨[[97, 98]], 0, 0, 0, 5, 2⟩) 1 =
      scr_home ⟨[[97, 98]], 0, 0, 0, 5, 2⟩ := by decide
  have hall : ∀ n, downTicks (scr_home ⟨[[97, 98]], 0, 0, 0, 5, 2⟩) n =
      scr_home ⟨[[97, 98]], 0, 0, 0, 5, 2⟩ := by
    intro n
    induction n with
    | zero => rfl
    | succ n ih =>
      show downTicks (scr_down (scr_home ⟨[[97, 98]], 0, 0, 0, 5, 2⟩) 1) n =
        scr_home ⟨[[97, 98]], 0, 0, 0, 5, 2⟩
      rw [hfix]
      exact ih
  rintro ⟨n, _, hn⟩
  rw [hall n] at hn
  exact absurd hn (by decide)

/-- C7 (amended): `scr_end` after `scr_end` is a no-op; and for every scroller
with a positive canvas width and a non-empty buffer whose last line's length
is not a positive multiple of the width, some number of `scr_down(1)` ticks
after `scr_home` yields exactly the viewport cursor of `scr_end`.  (When the
last line's length is a positive multiple of the width, the down ticks stop
one width short of `scr_end`'s column, as the counterexample shows.) -/
theorem c7_scroll_idempotent_and_reach :
    (∀ s : Scroller, scr_end (scr_end s) = scr_end s) ∧
    (∀ scr : Scroller, 1 ≤ scr.width → scr.buffer ≠ [] →
      ¬(0 < (scr.buffer.getD (scr.buffer.length - 1) []).length ∧
         scr.width ∣ (scr.buffer.getD (scr.buffer.length - 1) []).length) →
      ∃ n, (downTicks (scr_home scr) n).r = (scr_end scr).r ∧
           (downTicks (scr_home scr) n).c = (scr_end scr).c) := by
  constructor
  · intro s
    simp [scr_end]
  · intro scr hw hb hside
    have hlen : 0 < scr.buffer.length := List.length_pos.mpr hb
    obtain ⟨n1, hn1⟩ := descend scr hw (scr.buffer.length - 1) (by omega)
    obtain ⟨n2, c2, hn2, hdvd, hstuck, hor⟩ :=
      climb scr hw (scr.buffer.length - 1)
        ((scr.buffer.getD (scr.buffer.length - 1) []).length) 0 (dvd_zero _)
        (Or.inl rfl) (by push_cast; omega)
    refine ⟨n1 + n2, ?_, ?_⟩
    · rw [downTicks_add, hn1, hn2]
      simp [scr_end]
    · rw [downTicks_add, hn1, hn2]
      have hor2 : c2 = 0 ∨ c2 < (scr.buffer.getD (scr.buffer.length - 1) []).length := by
        rcases hor with h | h
        · exact Or.inl h
        · right; exact_mod_cast h
      have := stuck_col_eq scr.width
        ((scr.buffer.getD (scr.buffer.length - 1) []).length) c2 hw hdvd hstuck
        hor2 hside
      simp [scr_end, this]

/-- C7 witness: the reachability half applied to a scroller whose single line
"abc" (length 3, not a multiple of the width 2) sits on a 5 x 2 canvas. -/
theorem c7_witness :
    ∃ n, (downTicks (scr_home ⟨[[97, 98, 99]], 0, 0, 0, 5, 2⟩) n).r =
        (scr_end ⟨[[97, 98, 99]], 0, 0, 0, 5, 2⟩).r ∧
      (downTicks (scr_home ⟨[[97, 98, 99]], 0, 0, 0, 5, 2⟩) n).c =
        (scr_end ⟨[[97, 98, 99]], 0, 0, 0, 5, 2⟩).c :=
  c7_scroll_idempotent_and_reach.2 ⟨[[97, 98, 99]], 0, 0, 0, 5, 2⟩
    (by decide) (by decide) (by decide)
